import Mathlib

/-!
Verification of the gabos-mcp CHM documentation cache.

Shallow embedding of `src/gabos_mcp/extractors/chm.py` (registry validation,
marker-gated pipeline stages, readiness orchestration, search façade, page
reading, page listing) and `src/gabos_mcp/utils/search.py` (SQLite-FTS5 index
build and score exposure).  External collaborators (the 7z subprocess, the
BeautifulSoup + html2text conversion, the whoosh engine) are parameters of the
embedding; everything the repository's own code does is modelled directly.

Conventions: file system directories are association lists from path strings to
contents (first binding wins, as maintained by `setFile`); machine floats are
modelled by `ℚ`; paths are POSIX, slash-separated, on a symlink-free file
system.
-/

namespace GabosMcp

/-! ### String primitives

Structural (kernel-computable) counterparts of the Python string operations
the code uses, defined by recursion over the character list of the string:
lexicographic comparison by code point (Python `sorted` on `str`),
single-character split (`str.split`, and `str.splitlines` restricted to
`"\n"` terminators), whitespace strip (`str.strip`), suffix test, and
removal of trailing characters.
-/

/-- Lexicographic code-point comparison of character lists: the order Python
uses on strings. -/
def strLeAux : List Char → List Char → Bool
  | [], _ => true
  | _ :: _, [] => false
  | a :: as, b :: bs =>
    if a.toNat < b.toNat then true
    else if b.toNat < a.toNat then false
    else strLeAux as bs

/-- `x <= y` for Python strings (lexicographic by code point). -/
def strLe (x y : String) : Bool := strLeAux x.data y.data

/-- Split a character list at every occurrence of `sep` (keeping empty
pieces, as Python `str.split(sep)` does). -/
def splitOnCharAux (sep : Char) : List Char → List Char → List String
  | [], acc => [String.mk acc.reverse]
  | c :: cs, acc =>
    if c == sep then String.mk acc.reverse :: splitOnCharAux sep cs []
    else splitOnCharAux sep cs (c :: acc)

/-- Split a string at every occurrence of `sep`. -/
def splitOnChar (sep : Char) (s : String) : List String :=
  splitOnCharAux sep s.data []

/-- Python `str.strip()` (for the whitespace characters space, tab, CR,
LF). -/
def strTrim (s : String) : String :=
  String.mk (((s.data.dropWhile Char.isWhitespace).reverse.dropWhile
    Char.isWhitespace).reverse)

/-- Whether `s` ends with `suffix`. -/
def strHasSuffix (s suffix : String) : Bool :=
  suffix.data.isSuffixOf s.data

/-- Drop the last `n` characters of `s` (Python `s[:-n]` for `0 < n ≤ len`). -/
def strDropRight (s : String) (n : Nat) : String :=
  String.mk (s.data.take (s.data.length - n))

/-! ### Registry validation — `ChmExtractor._validate_app` / `_validate_source`

The configuration `apps` is an association list `app name ↦ source names`,
mirroring the constructor's `dict[str, dict[str, str]]` (the archive path a
source maps to is irrelevant to validation and is abstracted elsewhere).
-/

/-- Python `", ".join(sorted(names)) or "(none)"`: the sorted, comma-joined
name list, replaced by `"(none)"` when the join is empty (empty collection). -/
def availableOf (names : List String) : String :=
  let j := String.intercalate ", "
    (List.insertionSort (fun a b => strLe a b = true) names)
  if j = "" then "(none)" else j

/-- `ChmExtractor._validate_app` (chm.py lines 44–47): raise
`ValueError(f"Unknown app '{app}'. Available: {available}")` when the app is
not configured. -/
def validateApp (apps : List (String × List String)) (app : String) :
    Except String Unit :=
  if (apps.lookup app).isSome then .ok ()
  else .error ("Unknown app '" ++ app ++ "'. Available: "
    ++ availableOf (apps.map Prod.fst))

/-- `ChmExtractor._validate_source` (chm.py lines 49–53): validate the app
first, then raise
`ValueError(f"Unknown source '{source}' in app '{app}'. Available: ...")`
when the source is absent from that app. -/
def validateSource (apps : List (String × List String)) (app source : String) :
    Except String Unit :=
  (validateApp apps app).bind (fun _ =>
    if source ∈ ((apps.lookup app).getD []) then .ok ()
    else .error ("Unknown source '" ++ source ++ "' in app '" ++ app
      ++ "'. Available: " ++ availableOf ((apps.lookup app).getD [])))

/-! ### POSIX path resolution — `read_page`'s `(md_dir / path).resolve()`

A path string is split on `/`; empty and `.` components vanish (as in
`pathlib`); a leading `/` makes the path absolute, in which case `md_dir /
path` is `path` itself.  `resolve()` is lexical normalisation on a
symlink-free file system: `..` pops the last component and is a no-op at the
root.  `mdBase` stands for the already-resolved converted-text directory
(`md_dir.resolve()`), so it contains no `..`, `.` or empty components.
-/

/-- Split a POSIX path string into its components, dropping empty and `.`
components exactly as `pathlib.PurePosixPath` does. -/
def splitPath (s : String) : List String :=
  (splitOnChar '/' s).filter (fun c => c != "" && c != ".")

/-- Whether a path string is absolute (`pathlib`: leading slash). -/
def isAbsPath (s : String) : Bool :=
  match s.data with
  | c :: _ => c == '/'
  | [] => false

/-- One step of lexical `resolve()`: `..` pops the last component (the parent
of the root is the root), any other component is appended. -/
def normStep (stack : List String) (c : String) : List String :=
  if c = ".." then stack.dropLast else stack ++ [c]

/-- `(md_dir / path).resolve()` on a symlink-free file system: an absolute
`path` replaces `md_dir` (pathlib join semantics), a relative one is appended
to it, and `..` components are then resolved lexically. -/
def resolveAgainst (mdBase : List String) (path : String) : List String :=
  (splitPath path).foldl normStep (if isAbsPath path then [] else mdBase)

/-- Error outcomes of `read_page`: `ValueError` for traversal,
`FileNotFoundError` for a missing page. -/
inductive PageErr where
  | traversal
  | notFound
deriving DecidableEq, Repr

/-- `ChmExtractor.read_page` (chm.py lines 238–251), after validation and
readiness: resolve the requested path against the converted-text directory,
reject it when the canonical result is not inside that directory, report
not-found when no file exists there, and otherwise return the file's full
content.  `fs` is the file system as a map from absolute canonical paths to
file contents (directories are not in the map, matching `is_file()`). -/
def readPage (mdBase : List String) (fs : List (List String × String))
    (path : String) : Except PageErr String :=
  let resolved := resolveAgainst mdBase path
  if mdBase.isPrefixOf resolved then
    match fs.lookup resolved with
    | some c => .ok c
    | none => .error .notFound
  else .error .traversal

/-! ### Score exposure — `SearchIndex.search` and `ChmExtractor.search`

Floats are modelled by `ℚ`.  `utils/search.py` line 98 exposes a raw
SQLite-FTS5 `bm25()` value (lower is better, typically negative) as
`int(max(-score, 0.0) * 100 + 0.5) / 100`; since the argument of `int()` is
at least `1/2`, Python's truncation towards zero is the floor.  `chm.py` line
216 exposes a whoosh score (higher is better) as `round(hit.score, 2)`,
Python's round-half-to-even. -/

/-- The FTS5 score exposure `int(max(-score, 0.0) * 100 + 0.5) / 100`
(utils/search.py line 98): negate the lower-is-better engine value, floor it
at zero, and round half-up to two decimal places. -/
def fts5Score (raw : ℚ) : ℚ := (⌊max (-raw) 0 * 100 + 1 / 2⌋ : ℚ) / 100

/-- Python's built-in `round` to zero decimals: round half to even. -/
def pyRoundHalfEven (x : ℚ) : ℤ :=
  let f := ⌊x⌋
  if x - f < 1 / 2 then f
  else if x - f > 1 / 2 then f + 1
  else if f % 2 = 0 then f else f + 1

/-- The whoosh score exposure `round(hit.score, 2)` (chm.py line 216): the
higher-is-better engine value rounded to two decimal places. -/
def whooshScore (raw : ℚ) : ℚ := (pyRoundHalfEven (raw * 100) : ℚ) / 100

/-! ### Stage directories and the three marker-gated pipeline stages

A stage directory holds its completion marker bit (`.extracted`,
`.converted`, `.indexed`) and the remaining files as an association list
`relative path ↦ content`.  All three stage operations (chm.py `_extract`,
`_convert`, `_build_index`) begin with `if marker.exists(): return` and end
with `marker.touch()`.  Each stage function additionally reports whether it
performed stage work (the `Bool` component).
-/

/-- A pipeline stage directory: its completion-marker bit and its files. -/
structure StageDir where
  marker : Bool
  files : List (String × String)
deriving DecidableEq, Repr

/-- Writing a file into a directory: the new binding shadows (overwrites) any
previous binding of the same path. -/
def setFile (fs : List (String × String)) (e : String × String) :
    List (String × String) :=
  e :: fs.filter (fun f => f.1 != e.1)

/-- `ChmExtractor._extract` (chm.py lines 85–97): skip when the `.extracted`
marker exists; otherwise run 7z and set the marker.  The external 7z run is
the parameter `x7z`: `none` models a raised error (tool missing or non-zero
exit — the marker is then not written and the stage fails), `some out` the
extracted files, written into the directory with overwrite (`-y`).  The
partially-written directory of a failed run is not modelled (no claim
inspects it). -/
def extractStep (x7z : Option (List (String × String))) (d : StageDir) :
    Except Unit (StageDir × Bool) :=
  if d.marker then .ok (d, false)
  else match x7z with
    | none => .error ()
    | some out => .ok ({ marker := true, files := out.foldl setFile d.files }, true)

/-- Recognised markup inputs of `_convert`: chm.py line 110 enumerates
`html_dir.rglob("*.htm")` followed by `html_dir.rglob("*.html")`. -/
def htmlFiles (files : List (String × String)) : List (String × String) :=
  files.filter (fun f => strHasSuffix f.1 ".htm")
    ++ files.filter (fun f => strHasSuffix f.1 ".html")

/-- `Path.with_suffix(".md")` for a `.htm` / `.html` file name (chm.py line
123). -/
def mdName (p : String) : String :=
  if strHasSuffix p ".html" then strDropRight p 5 ++ ".md"
  else if strHasSuffix p ".htm" then strDropRight p 4 ++ ".md"
  else p

/-- The per-document outputs of the conversion loop (chm.py lines 111–128):
for each recognised markup file, the external BeautifulSoup + html2text
composite `convDoc` either fails (`none`, the document is logged and
skipped) or yields the markdown text, which is written verbatim to the
mirrored relative path with its extension normalised to `.md`. -/
def convertOutputs (convDoc : String → Option String)
    (files : List (String × String)) : List (String × String) :=
  (htmlFiles files).filterMap
    (fun f => (convDoc f.2).map (fun t => (mdName f.1, t)))

/-- `ChmExtractor._convert` (chm.py lines 99–130): skip when the `.converted`
marker exists; otherwise write every successfully converted document into the
output directory and set the marker (the marker is written even when
individual documents were skipped). -/
def convertStep (convDoc : String → Option String) (src dst : StageDir) :
    StageDir × Bool :=
  if dst.marker then (dst, false)
  else ({ marker := true,
          files := (convertOutputs convDoc src.files).foldl setFile dst.files },
        true)

/-- `ChmExtractor._build_index` (chm.py lines 132–164): skip when the
`.indexed` marker exists; otherwise produce the engine-specific index files
from the markdown documents (whoosh is external: `ixOf` stands for schema
creation, per-document `add_document` with its per-document error recovery,
and `commit`) and set the marker. -/
def indexStep (ixOf : List (String × String) → List (String × String))
    (md d : StageDir) : StageDir × Bool :=
  if d.marker then (d, false)
  else ({ marker := true, files := (ixOf md.files).foldl setFile d.files }, true)

/-! ### Readiness orchestration — `ChmExtractor._ensure_ready`

State per (app, source): the in-memory readiness set (a list of
`app ++ "/" ++ source` keys, chm.py `self._ready`) and the three stage
directories of the pair's cache entry.  `ensureReady` additionally reports
the number of stages that performed work and a trace of the completed
phases, so that ordering and I/O-count claims can be stated.
-/

/-- The three stage caches of one (app, source) pair:
`<cacheRoot>/<app>/<source>/{html,markdown,index}`. -/
structure Caches where
  html : StageDir
  md : StageDir
  idx : StageDir
deriving DecidableEq, Repr

/-- Phases of `_ensure_ready` in completion order. -/
inductive StageTag where
  | validated
  | extracted
  | converted
  | indexed
deriving DecidableEq, Repr

/-- Errors `_ensure_ready` can propagate: a configuration `ValueError` from
validation, or the extraction stage's exception. -/
inductive EnsureErr where
  | config (msg : String)
  | stageFail
deriving DecidableEq, Repr

/-- Result of one `_ensure_ready` call: the new readiness set, the new cache
state, how many stages performed work, the trace of completed phases, and
the propagated exception if any. -/
structure EnsureRes where
  ready : List String
  caches : Caches
  work : Nat
  trace : List StageTag
  err : Option EnsureErr
deriving DecidableEq, Repr

/-- `ChmExtractor._cache_key` (chm.py lines 38–39). -/
def cacheKey (app source : String) : String := app ++ "/" ++ source

/-- `ChmExtractor._ensure_ready` (chm.py lines 55–64): return immediately
when the key is in the readiness set; otherwise validate the pair, run
extraction → conversion → indexing strictly in that order (each stage
marker-gated), and add the key only after all three completed.  On a
validation or extraction error the exception propagates and the readiness
set is unchanged (the failed run's partial cache contents are not modelled;
no claim inspects them). -/
def ensureReady (apps : List (String × List String))
    (x7z : Option (List (String × String)))
    (convDoc : String → Option String)
    (ixOf : List (String × String) → List (String × String))
    (ready : List String) (app source : String) (c : Caches) : EnsureRes :=
  let key := cacheKey app source
  if key ∈ ready then ⟨ready, c, 0, [], none⟩
  else match validateSource apps app source with
    | .error e => ⟨ready, c, 0, [], some (.config e)⟩
    | .ok _ =>
      match extractStep x7z c.html with
      | .error _ => ⟨ready, c, 0, [.validated], some .stageFail⟩
      | .ok (html2, w1) =>
        let r2 := convertStep convDoc html2 c.md
        let r3 := indexStep ixOf r2.1 c.idx
        ⟨key :: ready, ⟨html2, r2.1, r3.1⟩,
          (cond w1 1 0) + (cond r2.2 1 0) + (cond r3.2 1 0),
          [.validated, .extracted, .converted, .indexed], none⟩

/-! ### The search façade — `ChmExtractor.search` (chm.py lines 166–221)

Per resolved (app, source) target the code runs `_ensure_ready` (which may
raise), skips the target when its index directory does not exist, parses the
query against that index's schema (a parse failure logs and makes the whole
call `return []`), and otherwise collects the engine's hits, tagging each
with the owning app and source.  The per-target behaviour — readiness,
engine, per-source limit included — is abstracted as an outcome function.
-/

/-- Possible per-target behaviour inside the search loop. -/
inductive SourceOutcome where
  | ensureFail (msg : String)
  | noIndex
  | parseFail
  | found (hs : List (String × String × ℚ))
deriving DecidableEq, Repr

/-- Whether an outcome is a propagating `_ensure_ready` exception. -/
def SourceOutcome.isEnsureFail : SourceOutcome → Bool
  | .ensureFail _ => true
  | _ => false

/-- One exposed search result: the dict
`{app, source, title, path, score}` built at chm.py lines 210–218. -/
structure Hit where
  app : String
  source : String
  title : String
  path : String
  score : ℚ
deriving DecidableEq, Repr

/-- Tag one target's (title, path, score) engine hits with the owning app and
source names. -/
def tagHits (a s : String) (hs : List (String × String × ℚ)) : List Hit :=
  hs.map (fun h => ⟨a, s, h.1, h.2.1, h.2.2⟩)

/-- Python truthiness of an optional string argument: `None` and `""` are
falsy (the code tests `if app and source`). -/
def strTruthy : Option String → Bool
  | none => false
  | some s => s != ""

/-- Target resolution of `ChmExtractor.search` (chm.py lines 178–190):
`InvalidScope` when `source` is truthy without `app`; the single given pair
when both are truthy; all configured sources of the given app (after
`_validate_app`) when only `app` is truthy; otherwise the full configured
cross product, in configuration order. -/
def resolveTargets (apps : List (String × List String))
    (app? src? : Option String) : Except String (List (String × String)) :=
  if strTruthy src? && !strTruthy app? then
    .error "Cannot specify source without app."
  else if strTruthy app? && strTruthy src? then
    .ok [(app?.getD "", src?.getD "")]
  else if strTruthy app? then
    (validateApp apps (app?.getD "")).bind (fun _ =>
      .ok (((apps.lookup (app?.getD "")).getD []).map
        (fun s => (app?.getD "", s))))
  else
    .ok (apps.flatMap (fun a => a.2.map (fun s => (a.1, s))))

/-- The target loop of `ChmExtractor.search` (chm.py lines 192–218): an
`_ensure_ready` exception propagates; a missing index is skipped
(`continue`); a query-parse failure makes the whole call return `[]`
(second component `false`), discarding the hits accumulated so far;
otherwise the tagged hits are appended to the accumulator. -/
def searchLoop (out : String → String → SourceOutcome) :
    List (String × String) → List Hit → Except String (List Hit × Bool)
  | [], acc => .ok (acc, true)
  | (a, s) :: rest, acc =>
    match out a s with
    | .ensureFail m => .error m
    | .noIndex => searchLoop out rest acc
    | .parseFail => .ok ([], false)
    | .found hs => searchLoop out rest (acc ++ tagHits a s hs)

/-- The descending-score comparison used by
`results.sort(key=lambda r: r["score"], reverse=True)`. -/
def scoreDesc (x y : Hit) : Prop := y.score ≤ x.score

instance : DecidableRel scoreDesc :=
  fun x y => inferInstanceAs (Decidable (y.score ≤ x.score))

/-- `ChmExtractor.search` (chm.py lines 166–221): resolve the targets, run
the per-target loop, and on normal completion sort the merged hits by score
descending (Python's stable sort, modelled by insertion sort) and truncate
to `limit`; a parse failure returns `[]` directly. -/
def searchFacade (apps : List (String × List String))
    (out : String → String → SourceOutcome)
    (app? src? : Option String) (limit : Nat) : Except String (List Hit) :=
  match resolveTargets apps app? src? with
  | .error e => .error e
  | .ok ts =>
    match searchLoop out ts [] with
    | .error e => .error e
    | .ok (res, true) => .ok ((List.insertionSort scoreDesc res).take limit)
    | .ok (_, false) => .ok []

/-! ### Page listing — `ChmExtractor.list_pages` (chm.py lines 253–284)

`docs` is the converted-text directory as `relative path ↦ content` (the
relative paths of the `*.md` files under `markdown/`).  `sorted(rglob(...))`
orders `pathlib` paths by their string form; since every enumerated path
shares the `md_dir` prefix this is exactly the lexicographic order of the
relative path strings.
-/

/-- Title derivation (chm.py lines 273–281, identically lines 152–157): the
first line whose `strip()` is non-empty, with leading `#` characters then
surrounding whitespace removed; the relative path when every line is blank
or the file is unreadable. -/
def deriveTitle (relPath content : String) : String :=
  match (splitOnChar '\n' content).find? (fun l => strTrim l != "") with
  | some l =>
      strTrim (String.mk ((strTrim l).data.dropWhile (fun c => c == '#')))
  | none => relPath

/-- The ascending relative-path order of `sorted(md_dir.rglob("*.md"))`. -/
def pathAsc (x y : String × String) : Prop := strLe x.1 y.1 = true

instance : DecidableRel pathAsc :=
  fun x y => inferInstanceAs (Decidable (strLe x.1 y.1 = true))

/-- The full page enumeration of `list_pages`: all converted documents in
lexicographic relative-path order, each as `(title, path)`. -/
def enumeratePages (docs : List (String × String)) : List (String × String) :=
  (List.insertionSort pathAsc docs).map (fun d => (deriveTitle d.1 d.2, d.1))

/-- `ChmExtractor.list_pages` (chm.py lines 253–284), after validation and
readiness: the `pages[offset : offset + limit]` slice of the ordered
enumeration (Python slicing with non-negative bounds = drop then take). -/
def listPages (docs : List (String × String)) (limit offset : Nat) :
    List (String × String) :=
  ((enumeratePages docs).drop offset).take limit

/-! ### The SQLite-FTS5 index build — `SearchIndex.build` (utils/search.py)

The index state is the marker bit plus the `docs` table (`none`: the table
does not exist).  `insOk` abstracts which `INSERT` statements succeed
(failures are logged and skipped, utils/search.py lines 50–57).  The build
additionally returns its event trace so that ordering claims (drop before
insert, marker last) can be stated.
-/

/-- Index storage state: marker bit and the `docs` table contents. -/
structure IndexState where
  marker : Bool
  table : Option (List (String × String × String))
deriving DecidableEq, Repr

/-- Observable events of `SearchIndex.build`, in execution order. -/
inductive BuildEv where
  | dropTable
  | createTable
  | insert (d : String × String × String)
  | commit
  | touchMarker
deriving DecidableEq, Repr

/-- `SearchIndex.build` (utils/search.py lines 32–62): no-op when the
`.indexed` marker exists; otherwise `DROP TABLE IF EXISTS docs`, create the
FTS5 table, attempt one `INSERT` per supplied document (failed inserts are
skipped), commit, and only then touch the marker. -/
def buildIndex (insOk : String × String × String → Bool)
    (docs : List (String × String × String)) (st : IndexState) :
    IndexState × List BuildEv :=
  if st.marker then (st, [])
  else ({ marker := true, table := some (docs.filter insOk) },
        [.dropTable, .createTable] ++ docs.map .insert
          ++ [.commit, .touchMarker])

/-! ### Helper instances and lemmas -/

theorem strLeAux_total : ∀ as bs, strLeAux as bs = true ∨ strLeAux bs as = true
  | [], _ => Or.inl rfl
  | _ :: _, [] => Or.inr rfl
  | a :: as, b :: bs => by
    simp only [strLeAux]
    rcases Nat.lt_trichotomy a.toNat b.toNat with h | h | h
    · left
      simp [h]
    · have h2 : ¬ a.toNat < b.toNat := by omega
      have h3 : ¬ b.toNat < a.toNat := by omega
      simpa [h2, h3] using strLeAux_total as bs
    · right
      simp [h]

theorem strLeAux_trans : ∀ as bs cs, strLeAux as bs = true →
    strLeAux bs cs = true → strLeAux as cs = true
  | [], _, _ => fun _ _ => rfl
  | _ :: _, [], _ => by simp [strLeAux]
  | _ :: _, _ :: _, [] => by simp [strLeAux]
  | a :: as, b :: bs, c :: cs => by
    intro h1 h2
    simp only [strLeAux] at h1 h2 ⊢
    split_ifs at h1 h2 ⊢ <;>
      first
        | rfl
        | omega
        | simp at h1
        | simp at h2
        | exact strLeAux_trans as bs cs h1 h2

instance : IsTotal (String × String) pathAsc :=
  ⟨fun a b => strLeAux_total a.1.data b.1.data⟩

instance : IsTrans (String × String) pathAsc :=
  ⟨fun _ _ _ h1 h2 => strLeAux_trans _ _ _ h1 h2⟩

instance : IsTotal Hit scoreDesc :=
  ⟨fun a b => le_total b.score a.score⟩

instance : IsTrans Hit scoreDesc :=
  ⟨fun _ _ _ h1 h2 => le_trans h2 h1⟩

/-! ### C8 — validation order and error messages -/

/-- C8: `validateSource` checks the application first, failing with the
unknown-app `ValueError` (whose message carries the sorted configured app
names, or `"(none)"`) regardless of the source argument; only when the app
is configured does it check the source, failing with the unknown-source
`ValueError` carrying that app's sorted source names; both present
validates.  `availableOf [] = "(none)"` shows the no-alternatives form. -/
theorem C8_validate_order_and_messages
    (apps : List (String × List String)) (app source : String) :
    (apps.lookup app = none →
      validateSource apps app source =
        .error ("Unknown app '" ++ app ++ "'. Available: "
          ++ availableOf (apps.map Prod.fst))) ∧
    (∀ srcs, apps.lookup app = some srcs → source ∉ srcs →
      validateSource apps app source =
        .error ("Unknown source '" ++ source ++ "' in app '" ++ app
          ++ "'. Available: " ++ availableOf srcs)) ∧
    (∀ srcs, apps.lookup app = some srcs → source ∈ srcs →
      validateSource apps app source = .ok ()) ∧
    availableOf [] = "(none)" := by
  refine ⟨fun h => ?_, fun srcs h hs => ?_, fun srcs h hs => ?_, rfl⟩
  · simp [validateSource, validateApp, h, Except.bind]
  · simp [validateSource, validateApp, h, Except.bind, hs]
  · simp [validateSource, validateApp, h, Except.bind, hs]

/-- Witness for C8 on a concrete two-app configuration. -/
theorem C8_validate_order_and_messages_witness :
    validateSource [("beta", ["x"]), ("alpha", ["y", "w"])] "gamma" "y" =
      .error "Unknown app 'gamma'. Available: alpha, beta" ∧
    validateSource [("beta", ["x"]), ("alpha", ["y", "w"])] "alpha" "z" =
      .error "Unknown source 'z' in app 'alpha'. Available: w, y" ∧
    validateSource [("beta", ["x"]), ("alpha", ["y", "w"])] "alpha" "w" =
      .ok () := by
  refine ⟨?_, ?_, ?_⟩
  · have := (C8_validate_order_and_messages
      [("beta", ["x"]), ("alpha", ["y", "w"])] "gamma" "y").1 (by decide)
    simpa [availableOf] using this
  · have := (C8_validate_order_and_messages
      [("beta", ["x"]), ("alpha", ["y", "w"])] "alpha" "z").2.1
      ["y", "w"] (by decide) (by decide)
    simpa [availableOf] using this
  · exact (C8_validate_order_and_messages
      [("beta", ["x"]), ("alpha", ["y", "w"])] "alpha" "w").2.2.1
      ["y", "w"] (by decide) (by decide)

/-! ### C10 — `SearchIndex.build` replaces the table and marks last -/

/-- C10: with the marker absent, `build` leaves the index containing exactly
the successfully inserted documents of the supplied sequence — the resulting
state does not depend on any pre-existing table contents — and the marker is
touched only after an insert was attempted for every supplied document. -/
theorem C10_build_replaces_table
    (insOk : String × String × String → Bool)
    (docs : List (String × String × String)) (st : IndexState)
    (hm : st.marker = false) :
    (buildIndex insOk docs st).1 =
      { marker := true, table := some (docs.filter insOk) } ∧
    ∃ pre, (buildIndex insOk docs st).2 = pre ++ [BuildEv.touchMarker] ∧
      ∀ d ∈ docs, BuildEv.insert d ∈ pre := by
  unfold buildIndex
  rw [hm]
  refine ⟨rfl, [.dropTable, .createTable] ++ docs.map .insert ++ [.commit],
    by simp, fun d hd => ?_⟩
  simp only [List.mem_append, List.mem_map]
  exact Or.inl (Or.inr ⟨d, hd, rfl⟩)

/-- Witness for C10: a stale row left by an earlier build disappears and the
failed insert is skipped, while the marker lands after both inserts. -/
theorem C10_build_replaces_table_witness :
    (buildIndex (fun d => d.1 != "bad")
        [("a.md", "A", "ca"), ("bad", "B", "cb")]
        ⟨false, some [("stale.md", "S", "cs")]⟩).1 =
      { marker := true, table := some [("a.md", "A", "ca")] } ∧
    ∃ pre, (buildIndex (fun d => d.1 != "bad")
        [("a.md", "A", "ca"), ("bad", "B", "cb")]
        ⟨false, some [("stale.md", "S", "cs")]⟩).2 =
          pre ++ [BuildEv.touchMarker] ∧
      ∀ d ∈ [("a.md", "A", "ca"), ("bad", "B", "cb")], BuildEv.insert d ∈ pre := by
  have h := C10_build_replaces_table (fun d => d.1 != "bad")
    [("a.md", "A", "ca"), ("bad", "B", "cb")]
    ⟨false, some [("stale.md", "S", "cs")]⟩ rfl
  exact ⟨by simpa using h.1, h.2⟩

/-! ### C5 — score exposure -/

/-- C5: the FTS5 exposure negates the lower-is-better raw value, floors it
at zero, and rounds it to two decimals, so it is non-negative for every raw
input and anti-monotone in it (lower raw = more relevant = higher exposed
score); the whoosh exposure of a (higher-is-better, non-negative) raw value
is its two-decimal rounding, for which the floor at zero is a no-op, and is
likewise non-negative. -/
theorem C5_score_exposure (raw a b w : ℚ) :
    0 ≤ fts5Score raw ∧
    (a ≤ b → fts5Score b ≤ fts5Score a) ∧
    (0 ≤ w → whooshScore w = whooshScore (max w 0) ∧ 0 ≤ whooshScore w) := by
  have h100 : (0:ℚ) < 100 := by norm_num
  refine ⟨?_, fun hab => ?_, fun hw => ⟨by rw [max_eq_left hw], ?_⟩⟩
  · unfold fts5Score
    apply div_nonneg _ (le_of_lt h100)
    have hx : (0:ℚ) ≤ max (-raw) 0 * 100 + 1 / 2 := by
      have := le_max_right (-raw) (0:ℚ)
      nlinarith
    exact_mod_cast Int.floor_nonneg.mpr hx
  · unfold fts5Score
    apply (div_le_div_iff_of_pos_right h100).mpr
    have hmax : max (-b) 0 ≤ max (-a) 0 :=
      max_le_max (neg_le_neg hab) le_rfl
    have : max (-b) 0 * 100 + 1 / 2 ≤ max (-a) 0 * 100 + 1 / 2 := by nlinarith
    exact_mod_cast Int.floor_le_floor this
  · unfold whooshScore
    apply div_nonneg _ (le_of_lt h100)
    have hf : 0 ≤ ⌊w * 100⌋ := Int.floor_nonneg.mpr (by positivity)
    have : 0 ≤ pyRoundHalfEven (w * 100) := by
      unfold pyRoundHalfEven
      dsimp only
      split_ifs <;> omega
    exact_mod_cast this

/-- Witness for C5 at concrete raw engine values: a bm25 output of `-3.178`
becomes `3.18`, a positive (anomalous) bm25 output is clamped to `0`, and a
whoosh score of `1.255` becomes the non-negative `1.26`. -/
theorem C5_score_exposure_witness :
    0 ≤ fts5Score (-3178/1000) ∧
    fts5Score (5/2) ≤ fts5Score (-3178/1000) ∧
    (whooshScore (1255/1000) = whooshScore (max (1255/1000) 0) ∧
      0 ≤ whooshScore (1255/1000)) := by
  refine ⟨(C5_score_exposure (-3178/1000) 0 0 0).1,
    (C5_score_exposure 0 (-3178/1000) (5/2) 0).2.1 (by norm_num),
    (C5_score_exposure 0 0 0 (1255/1000)).2.2 (by norm_num)⟩

/-! ### C7 — `list_pages` enumeration and pagination -/

/-- C7: the page enumeration is sorted by relative path, contains the
derived `(title, path)` entry of every converted document, and `list_pages`
returns exactly its `[offset, offset + limit)` slice — at most `limit`
entries, and the empty list (not an error) when `offset` is at or past the
end. -/
theorem C7_list_pages_pagination
    (docs : List (String × String)) (limit offset : Nat) :
    List.Pairwise (fun x y : String × String => strLe x.2 y.2 = true)
      (enumeratePages docs) ∧
    (∀ p c, (p, c) ∈ docs → (deriveTitle p c, p) ∈ enumeratePages docs) ∧
    listPages docs limit offset =
      ((enumeratePages docs).drop offset).take limit ∧
    (listPages docs limit offset).length ≤ limit ∧
    ((enumeratePages docs).length ≤ offset → listPages docs limit offset = []) := by
  refine ⟨?_, fun p c hpc => ?_, rfl, ?_, fun hoff => ?_⟩
  · unfold enumeratePages
    exact List.pairwise_map.mpr (List.sorted_insertionSort pathAsc docs)
  · unfold enumeratePages
    have hmem : (p, c) ∈ List.insertionSort pathAsc docs :=
      (List.perm_insertionSort pathAsc docs).mem_iff.mpr hpc
    exact List.mem_map.mpr ⟨(p, c), hmem, rfl⟩
  · exact List.length_take_le limit _
  · unfold listPages
    rw [List.drop_eq_nil_of_le hoff, List.take_nil]

/-- Witness for C7 on a concrete three-page source: slices
`limit = 1, offset ∈ {0, 1}` are distinct singletons and `offset = 10` is
empty. -/
theorem C7_list_pages_pagination_witness :
    listPages [("b.md", "# B"), ("a/x.md", "X"), ("ab.md", "")] 5 10 = [] ∧
    List.Pairwise (fun x y : String × String => strLe x.2 y.2 = true)
      (enumeratePages [("b.md", "# B"), ("a/x.md", "X"), ("ab.md", "")]) ∧
    listPages [("b.md", "# B"), ("a/x.md", "X"), ("ab.md", "")] 1 0 =
      [("X", "a/x.md")] ∧
    listPages [("b.md", "# B"), ("a/x.md", "X"), ("ab.md", "")] 1 1 =
      [("ab.md", "ab.md")] := by
  refine ⟨(C7_list_pages_pagination
      [("b.md", "# B"), ("a/x.md", "X"), ("ab.md", "")] 5 10).2.2.2.2
      (by decide), (C7_list_pages_pagination
      [("b.md", "# B"), ("a/x.md", "X"), ("ab.md", "")] 1 0).1, by decide, by decide⟩

/-! ### C3 — `read_page` traversal safety -/

/-- C3: whenever the canonical resolution of `path` against the
converted-text directory lies outside that directory (`..`-escapes and
absolute paths included), `read_page` fails with the path-safety
`ValueError` — for every file-system content, i.e. before reading any page
file; when the resolution is inside but no file exists there it fails with
the distinct `FileNotFoundError`; otherwise it returns the file's full
content. -/
theorem C3_read_page_traversal_safety
    (mdBase : List String) (path : String) :
    (¬ mdBase.isPrefixOf (resolveAgainst mdBase path) = true →
      ∀ fs, readPage mdBase fs path = .error .traversal) ∧
    (mdBase.isPrefixOf (resolveAgainst mdBase path) = true →
      ∀ fs, fs.lookup (resolveAgainst mdBase path) = none →
        readPage mdBase fs path = .error .notFound) ∧
    (mdBase.isPrefixOf (resolveAgainst mdBase path) = true →
      ∀ fs c, fs.lookup (resolveAgainst mdBase path) = some c →
        readPage mdBase fs path = .ok c) := by
  refine ⟨fun h fs => ?_, fun h fs hl => ?_, fun h fs c hl => ?_⟩
  · simp only [readPage]
    simp [h]
  · simp only [readPage]
    simp [h, hl]
  · simp only [readPage]
    simp [h, hl]

/-- Witness for C3: under the resolved converted directory
`/root/cache/app/src/markdown`, the path `../../etc/passwd` escapes and is
rejected for any file-system content; `missing.md` is inside but absent; and
`sub/page.md` is read back in full. -/
theorem C3_read_page_traversal_safety_witness :
    readPage ["root", "cache", "app", "src", "markdown"]
      [(["root", "cache", "app", "src", "markdown", "sub", "page.md"], "# T")]
      "../../etc/passwd" = .error .traversal ∧
    readPage ["root", "cache", "app", "src", "markdown"]
      [(["root", "cache", "app", "src", "markdown", "sub", "page.md"], "# T")]
      "missing.md" = .error .notFound ∧
    readPage ["root", "cache", "app", "src", "markdown"]
      [(["root", "cache", "app", "src", "markdown", "sub", "page.md"], "# T")]
      "sub/page.md" = .ok "# T" := by
  refine ⟨(C3_read_page_traversal_safety
      ["root", "cache", "app", "src", "markdown"] "../../etc/passwd").1
      (by decide) _,
    (C3_read_page_traversal_safety
      ["root", "cache", "app", "src", "markdown"] "missing.md").2.1
      (by decide) _ (by decide),
    (C3_read_page_traversal_safety
      ["root", "cache", "app", "src", "markdown"] "sub/page.md").2.2
      (by decide) _ "# T" (by decide)⟩

/-! ### C4 — the conversion stage performs no line-level postprocessing

The specification describes a cleanup pass over the converter's output
(dropping `**Navigation:**` breadcrumb lines and lines of empty link
placeholders, collapsing blank-line runs).  `_convert` (chm.py lines
111–126) has no such pass: the string returned by
`converter.handle(cleaned_html)` is written to the output file verbatim.
-/

theorem lookup_filter_ne (base : List (String × String)) (p k : String)
    (hp : p ≠ k) :
    (base.filter (fun f => f.1 != k)).lookup p = base.lookup p := by
  induction base with
  | nil => rfl
  | cons e es ih =>
    by_cases he : e.1 = k
    · have : (e.1 != k) = false := by simp [he]
      simp [List.filter, this, ih, List.lookup,
        show (p == e.1) = false by simp [he, hp]]
    · have : (e.1 != k) = true := by simp [he]
      by_cases hpe : p = e.1
      · simp [List.filter, this, List.lookup, hpe]
      · simp [List.filter, this, List.lookup, ih,
          show (p == e.1) = false by simp [hpe]]

theorem lookup_foldl_setFile (outs : List (String × String)) :
    ∀ (base : List (String × String)) (p t : String),
    (outs.foldl setFile base).lookup p = some t →
    (p, t) ∈ outs ∨ base.lookup p = some t := by
  induction outs with
  | nil => exact fun base p t h => Or.inr h
  | cons o rest ih =>
    intro base p t h
    rcases ih (setFile base o) p t h with h1 | h2
    · exact Or.inl (List.mem_cons_of_mem o h1)
    · by_cases hpo : p = o.1
      · have : t = o.2 := by
          have h3 : o.2 = t := by
            simpa [setFile, List.lookup, hpo] using h2
          exact h3.symm
        subst this
        exact Or.inl (by rw [hpo]; exact List.mem_cons_self o rest)
      · right
        rw [← lookup_filter_ne base p o.1 hpo]
        simpa [setFile, List.lookup, show (p == o.1) = false by simp [hpo]]
          using h2

/-- C4 (amended): the conversion stage applies no postprocessing — every
file it writes carries some converter output verbatim: a file `p ↦ t` found
in the stage's output either pre-existed or satisfies `t = convDoc c` for a
recognised source document `c`, with no line removed or blank run
collapsed. -/
theorem C4_convert_writes_verbatim
    (convDoc : String → Option String) (src dst : StageDir) (p t : String)
    (hm : dst.marker = false)
    (h : ((convertStep convDoc src dst).1.files).lookup p = some t) :
    (∃ q c, (q, c) ∈ htmlFiles src.files ∧ mdName q = p ∧ convDoc c = some t)
      ∨ dst.files.lookup p = some t := by
  rw [convertStep, hm] at h
  simp only [Bool.false_eq_true, if_false] at h
  rcases lookup_foldl_setFile _ _ _ _ h with h1 | h2
  · left
    obtain ⟨f, hf, hmap⟩ := List.mem_filterMap.mp h1
    obtain ⟨t', ht', heq⟩ := Option.map_eq_some'.mp hmap
    obtain ⟨hp, ht⟩ := Prod.ext_iff.mp heq
    exact ⟨f.1, f.2, hf, hp, by rw [ht']; exact congrArg some ht⟩
  · exact Or.inr h2

/-- C4 counterexample: a converter output containing a literal
`**Navigation:** Home > Topic` line, an empty-link-placeholder-only line,
and a run of four blank lines is written to the output file unchanged —
none of the three cleanups claimed for the conversion stage happens. -/
theorem C4_no_navigation_stripping_counterexample :
    ((convertStep
        (fun _ => some
          "**Navigation:** Home > Topic\n[](img1.png)[](img2.png)\n\n\n\n\nBody")
        { marker := true, files := [("a.htm", "<p>x</p>")] }
        { marker := false, files := [] }).1.files).lookup "a.md" =
      some "**Navigation:** Home > Topic\n[](img1.png)[](img2.png)\n\n\n\n\nBody" ∧
    "**Navigation:** Home > Topic" ∈ splitOnChar '\n'
      "**Navigation:** Home > Topic\n[](img1.png)[](img2.png)\n\n\n\n\nBody" ∧
    "[](img1.png)[](img2.png)" ∈ splitOnChar '\n'
      "**Navigation:** Home > Topic\n[](img1.png)[](img2.png)\n\n\n\n\nBody" ∧
    List.IsInfix ["", "", "", ""] (splitOnChar '\n'
      "**Navigation:** Home > Topic\n[](img1.png)[](img2.png)\n\n\n\n\nBody") := by
  refine ⟨by decide, by decide, by decide, ?_⟩
  exact ⟨["**Navigation:** Home > Topic", "[](img1.png)[](img2.png)"],
    ["Body"], by decide⟩

/-- Witness for the amended C4: a concrete conversion writes the converter's
output text for `a.htm` to `a.md` unaltered. -/
theorem C4_convert_writes_verbatim_witness :
    (∃ q c, (q, c) ∈ htmlFiles [("a.htm", "<p>x</p>")] ∧ mdName q = "a.md" ∧
        (fun c' => some ("MD:" ++ c')) c = some "MD:<p>x</p>")
      ∨ List.lookup "a.md" ([] : List (String × String)) = some "MD:<p>x</p>" :=
  C4_convert_writes_verbatim (fun c' => some ("MD:" ++ c'))
    { marker := true, files := [("a.htm", "<p>x</p>")] }
    { marker := false, files := [] } "a.md" "MD:<p>x</p>" rfl (by decide)

/-! ### C1 / C2 — marker-gated idempotence and readiness bookkeeping -/

theorem ensureReady_mem (apps : List (String × List String))
    (x7z : Option (List (String × String))) (convDoc : String → Option String)
    (ixOf : List (String × String) → List (String × String))
    (ready : List String) (app source : String) (c : Caches)
    (hk : cacheKey app source ∈ ready) :
    ensureReady apps x7z convDoc ixOf ready app source c =
      ⟨ready, c, 0, [], none⟩ := by
  unfold ensureReady
  rw [if_pos hk]

theorem ensureReady_not_mem_cases (apps : List (String × List String))
    (x7z : Option (List (String × String))) (convDoc : String → Option String)
    (ixOf : List (String × String) → List (String × String))
    (ready : List String) (app source : String) (c : Caches)
    (hk : cacheKey app source ∉ ready) :
    (∃ e, validateSource apps app source = .error e ∧
      ensureReady apps x7z convDoc ixOf ready app source c =
        ⟨ready, c, 0, [], some (.config e)⟩) ∨
    (validateSource apps app source = .ok () ∧
      extractStep x7z c.html = .error () ∧
      ensureReady apps x7z convDoc ixOf ready app source c =
        ⟨ready, c, 0, [.validated], some .stageFail⟩) ∨
    (∃ pr, validateSource apps app source = .ok () ∧
      extractStep x7z c.html = .ok pr ∧
      ensureReady apps x7z convDoc ixOf ready app source c =
        ⟨cacheKey app source :: ready,
         ⟨pr.1, (convertStep convDoc pr.1 c.md).1,
          (indexStep ixOf (convertStep convDoc pr.1 c.md).1 c.idx).1⟩,
         (cond pr.2 1 0) + (cond (convertStep convDoc pr.1 c.md).2 1 0)
           + (cond (indexStep ixOf (convertStep convDoc pr.1 c.md).1 c.idx).2 1 0),
         [.validated, .extracted, .converted, .indexed], none⟩) := by
  unfold ensureReady
  rw [if_neg hk]
  cases hv : validateSource apps app source with
  | error e => exact Or.inl ⟨e, rfl, rfl⟩
  | ok u =>
    cases u
    cases hx : extractStep x7z c.html with
    | error e =>
      cases e
      exact Or.inr (Or.inl ⟨rfl, rfl, rfl⟩)
    | ok pr => exact Or.inr (Or.inr ⟨pr, rfl, rfl, rfl⟩)

/-- C1: each pipeline stage is an unconditional no-op when its completion
marker is present — the stage directory is returned unchanged and no stage
work is performed, whatever the directory's other contents are (present,
deleted, or corrupted files alike); consequently, after a successful
`_ensure_ready`, a second call for the same pair performs no stage work at
all and changes nothing. -/
theorem C1_completion_marker_no_op (apps : List (String × List String))
    (x7z : Option (List (String × String))) (convDoc : String → Option String)
    (ixOf : List (String × String) → List (String × String))
    (ready : List String) (app source : String) (c : Caches) :
    (∀ d : StageDir, d.marker = true → extractStep x7z d = .ok (d, false)) ∧
    (∀ src d : StageDir, d.marker = true →
      convertStep convDoc src d = (d, false)) ∧
    (∀ md d : StageDir, d.marker = true → indexStep ixOf md d = (d, false)) ∧
    ((ensureReady apps x7z convDoc ixOf ready app source c).err = none →
      ensureReady apps x7z convDoc ixOf
          (ensureReady apps x7z convDoc ixOf ready app source c).ready
          app source
          (ensureReady apps x7z convDoc ixOf ready app source c).caches =
        ⟨(ensureReady apps x7z convDoc ixOf ready app source c).ready,
         (ensureReady apps x7z convDoc ixOf ready app source c).caches,
         0, [], none⟩) := by
  refine ⟨fun d hm => by simp [extractStep, hm],
    fun src d hm => by simp [convertStep, hm],
    fun md d hm => by simp [indexStep, hm],
    fun herr => ?_⟩
  by_cases hk : cacheKey app source ∈ ready
  · rw [ensureReady_mem apps x7z convDoc ixOf ready app source c hk]
    exact ensureReady_mem apps x7z convDoc ixOf ready app source c hk
  · rcases ensureReady_not_mem_cases apps x7z convDoc ixOf ready app source c hk
      with ⟨e, _, hr⟩ | ⟨_, _, hr⟩ | ⟨pr, _, _, hr⟩
    · rw [hr] at herr
      simp at herr
    · rw [hr] at herr
      simp at herr
    · rw [hr]
      exact ensureReady_mem apps x7z convDoc ixOf _ app source _
        (List.mem_cons_self _ _)

/-- Witness for C1: marker-carrying stage directories (with differing stray
contents) pass through all three stages untouched, and a successful
`_ensure_ready` on a one-source configuration makes the second call a
complete no-op. -/
theorem C1_completion_marker_no_op_witness :
    extractStep (some [("p.htm", "<x>")]) ⟨true, [("stray", "s")]⟩ =
      .ok (⟨true, [("stray", "s")]⟩, false) ∧
    convertStep (fun t => some t) ⟨true, [("p.htm", "<x>")]⟩ ⟨true, []⟩ =
      (⟨true, []⟩, false) ∧
    indexStep id ⟨true, []⟩ ⟨true, [("seg", "z")]⟩ =
      (⟨true, [("seg", "z")]⟩, false) ∧
    ensureReady [("a", ["s"])] (some [("p.htm", "<x>")]) (fun t => some t) id
        (ensureReady [("a", ["s"])] (some [("p.htm", "<x>")]) (fun t => some t)
          id [] "a" "s" ⟨⟨false, []⟩, ⟨false, []⟩, ⟨false, []⟩⟩).ready
        "a" "s"
        (ensureReady [("a", ["s"])] (some [("p.htm", "<x>")]) (fun t => some t)
          id [] "a" "s" ⟨⟨false, []⟩, ⟨false, []⟩, ⟨false, []⟩⟩).caches =
      ⟨(ensureReady [("a", ["s"])] (some [("p.htm", "<x>")]) (fun t => some t)
          id [] "a" "s" ⟨⟨false, []⟩, ⟨false, []⟩, ⟨false, []⟩⟩).ready,
       (ensureReady [("a", ["s"])] (some [("p.htm", "<x>")]) (fun t => some t)
          id [] "a" "s" ⟨⟨false, []⟩, ⟨false, []⟩, ⟨false, []⟩⟩).caches,
       0, [], none⟩ := by
  have h := C1_completion_marker_no_op [("a", ["s"])] (some [("p.htm", "<x>")])
    (fun t => some t) id [] "a" "s" ⟨⟨false, []⟩, ⟨false, []⟩, ⟨false, []⟩⟩
  exact ⟨h.1 ⟨true, [("stray", "s")]⟩ rfl,
    h.2.1 ⟨true, [("p.htm", "<x>")]⟩ ⟨true, []⟩ rfl,
    h.2.2.1 ⟨true, []⟩ ⟨true, [("seg", "z")]⟩ rfl,
    h.2.2.2 (by decide)⟩

/-- C2: for a pair not yet in the readiness set, `_ensure_ready` adds its
key if and only if it completes without an exception; on success the run
performed validation, extraction, conversion and indexing in exactly that
order (validation succeeded and extraction returned normally); on an
exception the readiness set is returned unchanged, so the next call
re-enters the sequence from validation instead of short-circuiting. -/
theorem C2_ready_iff_success (apps : List (String × List String))
    (x7z : Option (List (String × String))) (convDoc : String → Option String)
    (ixOf : List (String × String) → List (String × String))
    (ready : List String) (app source : String) (c : Caches)
    (hk : cacheKey app source ∉ ready) :
    ((ensureReady apps x7z convDoc ixOf ready app source c).err = none ↔
      cacheKey app source ∈
        (ensureReady apps x7z convDoc ixOf ready app source c).ready) ∧
    ((ensureReady apps x7z convDoc ixOf ready app source c).err = none →
      (ensureReady apps x7z convDoc ixOf ready app source c).ready =
        cacheKey app source :: ready ∧
      (ensureReady apps x7z convDoc ixOf ready app source c).trace =
        [.validated, .extracted, .converted, .indexed] ∧
      validateSource apps app source = .ok () ∧
      ∃ pr, extractStep x7z c.html = .ok pr) ∧
    (∀ e, (ensureReady apps x7z convDoc ixOf ready app source c).err = some e →
      (ensureReady apps x7z convDoc ixOf ready app source c).ready = ready) := by
  rcases ensureReady_not_mem_cases apps x7z convDoc ixOf ready app source c hk
    with ⟨e, hv, hr⟩ | ⟨hv, hx, hr⟩ | ⟨pr, hv, hx, hr⟩
  · rw [hr]
    exact ⟨by simpa using hk, by simp, fun e' _ => rfl⟩
  · rw [hr]
    exact ⟨by simpa using hk, by simp, fun e' _ => rfl⟩
  · rw [hr]
    exact ⟨by simp, fun _ => ⟨rfl, rfl, hv, pr, hx⟩, fun e' he' => by simp at he'⟩

/-- Witness for C2: on a one-source configuration with a working extractor
the key is added exactly once with the full validation-through-indexing
trace; with a failing extractor the readiness set stays empty. -/
theorem C2_ready_iff_success_witness :
    ((ensureReady [("a", ["s"])] (some [("p.htm", "<x>")]) (fun t => some t) id
        [] "a" "s" ⟨⟨false, []⟩, ⟨false, []⟩, ⟨false, []⟩⟩).err = none ↔
      cacheKey "a" "s" ∈
        (ensureReady [("a", ["s"])] (some [("p.htm", "<x>")]) (fun t => some t)
          id [] "a" "s" ⟨⟨false, []⟩, ⟨false, []⟩, ⟨false, []⟩⟩).ready) ∧
    (∀ e, (ensureReady [("a", ["s"])] none (fun t => some t) id
        [] "a" "s" ⟨⟨false, []⟩, ⟨false, []⟩, ⟨false, []⟩⟩).err = some e →
      (ensureReady [("a", ["s"])] none (fun t => some t) id
        [] "a" "s" ⟨⟨false, []⟩, ⟨false, []⟩, ⟨false, []⟩⟩).ready = []) := by
  refine ⟨(C2_ready_iff_success [("a", ["s"])] (some [("p.htm", "<x>")])
      (fun t => some t) id [] "a" "s"
      ⟨⟨false, []⟩, ⟨false, []⟩, ⟨false, []⟩⟩ (by decide)).1,
    (C2_ready_iff_success [("a", ["s"])] none
      (fun t => some t) id [] "a" "s"
      ⟨⟨false, []⟩, ⟨false, []⟩, ⟨false, []⟩⟩ (by decide)).2.2⟩

/-! ### C6 / C9 — façade search scoping, merging and parse-failure path -/

theorem searchLoop_mem (out : String → String → SourceOutcome) :
    ∀ (ts : List (String × String)) (acc res : List Hit) (b : Bool),
    searchLoop out ts acc = .ok (res, b) →
    ∀ x ∈ res, x ∈ acc ∨ (x.app, x.source) ∈ ts := by
  intro ts
  induction ts with
  | nil =>
    intro acc res b h x hx
    simp only [searchLoop, Except.ok.injEq, Prod.mk.injEq] at h
    exact Or.inl (h.1 ▸ hx)
  | cons t rest ih =>
    intro acc res b h x hx
    obtain ⟨a, s⟩ := t
    simp only [searchLoop] at h
    cases hout : out a s <;> rw [hout] at h
    case ensureFail m => simp at h
    case noIndex =>
      rcases ih acc res b h x hx with h1 | h2
      · exact Or.inl h1
      · exact Or.inr (List.mem_cons_of_mem _ h2)
    case parseFail =>
      simp only [Except.ok.injEq, Prod.mk.injEq] at h
      rw [← h.1] at hx
      simp at hx
    case found hs =>
      rcases ih _ res b h x hx with h1 | h2
      · rcases List.mem_append.mp h1 with ha | ht
        · exact Or.inl ha
        · obtain ⟨h3, _, rfl⟩ := List.mem_map.mp ht
          exact Or.inr (by simp [tagHits])
      · exact Or.inr (List.mem_cons_of_mem _ h2)

theorem searchLoop_parseFail (out : String → String → SourceOutcome) :
    ∀ (ts : List (String × String)) (acc : List Hit),
    (∀ t ∈ ts, (out t.1 t.2).isEnsureFail = false) →
    (∃ t ∈ ts, out t.1 t.2 = .parseFail) →
    searchLoop out ts acc = .ok ([], false) := by
  intro ts
  induction ts with
  | nil =>
    intro acc _ hex
    simp at hex
  | cons t rest ih =>
    intro acc hnf hex
    obtain ⟨a, s⟩ := t
    simp only [searchLoop]
    cases hout : out a s
    case ensureFail m =>
      exfalso
      have hh := hnf (a, s) (List.mem_cons_self _ _)
      rw [hout] at hh
      simp [SourceOutcome.isEnsureFail] at hh
    case parseFail => rfl
    case noIndex =>
      apply ih
      · exact fun t ht => hnf t (List.mem_cons_of_mem _ ht)
      · rcases hex with ⟨t, ht, hpf⟩
        rcases List.mem_cons.mp ht with rfl | htr
        · rw [hout] at hpf
          simp at hpf
        · exact ⟨t, htr, hpf⟩
    case found hs =>
      apply ih
      · exact fun t ht => hnf t (List.mem_cons_of_mem _ ht)
      · rcases hex with ⟨t, ht, hpf⟩
        rcases List.mem_cons.mp ht with rfl | htr
        · rw [hout] at hpf
          simp at hpf
        · exact ⟨t, htr, hpf⟩

/-- C6: the façade resolves its targets with the given precedence (exactly
the truthy (app, source) pair; else all configured sources of the truthy
app; else the full configured cross product, in configuration order), and
its result contains only hits attributed to resolved targets, sorted by
exposed score descending, truncated to at most `limit`. -/
theorem C6_search_scoping_and_merge
    (apps : List (String × List String)) (out : String → String → SourceOutcome)
    (limit : Nat) (a s : String) (srcs : List String)
    (app? src? : Option String) (ts : List (String × String)) (res : List Hit) :
    (a ≠ "" → s ≠ "" → resolveTargets apps (some a) (some s) = .ok [(a, s)]) ∧
    (a ≠ "" → apps.lookup a = some srcs →
      resolveTargets apps (some a) none = .ok (srcs.map (fun s' => (a, s')))) ∧
    resolveTargets apps none none =
      .ok (apps.flatMap (fun p => p.2.map (fun s' => (p.1, s')))) ∧
    (resolveTargets apps app? src? = .ok ts →
      searchFacade apps out app? src? limit = .ok res →
      (∀ x ∈ res, (x.app, x.source) ∈ ts) ∧
      List.Pairwise scoreDesc res ∧ res.length ≤ limit) := by
  refine ⟨fun ha hs => ?_, fun ha hl => ?_, ?_, fun hres hfac => ?_⟩
  · simp [resolveTargets, strTruthy, ha, hs]
  · simp [resolveTargets, strTruthy, ha, validateApp, hl, Except.bind]
  · simp [resolveTargets, strTruthy]
  · unfold searchFacade at hfac
    rw [hres] at hfac
    dsimp only at hfac
    cases hloop : searchLoop out ts [] with
    | error e =>
      rw [hloop] at hfac
      simp at hfac
    | ok p =>
      obtain ⟨r, b⟩ := p
      rw [hloop] at hfac
      cases b with
      | false =>
        simp only [Except.ok.injEq] at hfac
        rw [← hfac]
        exact ⟨by simp, by simp, by simp⟩
      | true =>
        simp only [Except.ok.injEq] at hfac
        rw [← hfac]
        refine ⟨fun x hx => ?_, ?_, List.length_take_le limit _⟩
        · have hx2 : x ∈ List.insertionSort scoreDesc r :=
            List.mem_of_mem_take hx
          have hxr : x ∈ r :=
            (List.perm_insertionSort scoreDesc r).mem_iff.mp hx2
          rcases searchLoop_mem out ts [] r true hloop x hxr with h1 | h2
          · simp at h1
          · exact h2
        · exact (List.sorted_insertionSort scoreDesc r).sublist
            (List.take_sublist limit _)

/-- Witness for C6 on a concrete configuration: scoped target sets resolve
with the stated precedence, and an all-sources search returns only tagged
hits from the resolved targets, score-sorted and truncated to two. -/
theorem C6_search_scoping_and_merge_witness :
    resolveTargets [("app1", ["s1", "s2"]), ("app2", ["t"])]
      (some "app1") (some "s1") = .ok [("app1", "s1")] ∧
    resolveTargets [("app1", ["s1", "s2"]), ("app2", ["t"])]
      (some "app1") none = .ok [("app1", "s1"), ("app1", "s2")] ∧
    resolveTargets [("app1", ["s1", "s2"]), ("app2", ["t"])] none none =
      .ok [("app1", "s1"), ("app1", "s2"), ("app2", "t")] ∧
    ((∀ x ∈ [(⟨"app1", "s1", "T2", "p2", 3⟩ : Hit),
        ⟨"app2", "t", "T3", "p3", 2⟩],
        (x.app, x.source) ∈ [("app1", "s1"), ("app1", "s2"), ("app2", "t")]) ∧
      List.Pairwise scoreDesc [(⟨"app1", "s1", "T2", "p2", 3⟩ : Hit),
        ⟨"app2", "t", "T3", "p3", 2⟩] ∧
      ([(⟨"app1", "s1", "T2", "p2", 3⟩ : Hit),
        ⟨"app2", "t", "T3", "p3", 2⟩] : List Hit).length ≤ 2) := by
  have h := C6_search_scoping_and_merge
    [("app1", ["s1", "s2"]), ("app2", ["t"])]
    (fun a' s' =>
      if s' = "s1" then .found [("T1", "p1", 1), ("T2", "p2", 3)]
      else if s' = "s2" then .noIndex
      else .found [("T3", "p3", 2)])
    2 "app1" "s1" ["s1", "s2"] none none
    [("app1", "s1"), ("app1", "s2"), ("app2", "t")]
    [⟨"app1", "s1", "T2", "p2", 3⟩, ⟨"app2", "t", "T3", "p3", 2⟩]
  refine ⟨by simpa using h.1 (by decide) (by decide),
    by simpa using h.2.1 (by decide) (by rfl),
    by simpa using h.2.2.1, h.2.2.2 (by rfl) (by rfl)⟩

/-- C9: when query parsing fails for any resolved target (and no target's
readiness raises first), the whole façade search returns the empty list,
discarding every hit collected from earlier targets of the same
invocation. -/
theorem C9_parse_failure_returns_empty
    (apps : List (String × List String)) (out : String → String → SourceOutcome)
    (app? src? : Option String) (limit : Nat) (ts : List (String × String))
    (hres : resolveTargets apps app? src? = .ok ts)
    (hnf : ∀ t ∈ ts, (out t.1 t.2).isEnsureFail = false)
    (hpf : ∃ t ∈ ts, out t.1 t.2 = .parseFail) :
    searchFacade apps out app? src? limit = .ok [] := by
  unfold searchFacade
  rw [hres]
  dsimp only
  rw [searchLoop_parseFail out ts [] hnf hpf]

/-- Witness for C9: the first target produces a hit, the second fails to
parse — the invocation still returns the empty list. -/
theorem C9_parse_failure_returns_empty_witness :
    searchFacade [("a", ["s1", "s2"])]
      (fun _ s => if s = "s1" then .found [("T", "p", 1)] else .parseFail)
      none none 10 = .ok [] :=
  C9_parse_failure_returns_empty [("a", ["s1", "s2"])]
    (fun _ s => if s = "s1" then .found [("T", "p", 1)] else .parseFail)
    none none 10 [("a", "s1"), ("a", "s2")]
    (by rfl) (by decide) ⟨("a", "s2"), by decide, by decide⟩

end GabosMcp
